import Mathlib

/-!
Verification of the ctsTraffic socket broker (`ctsTraffic/ctsSocketBroker.cpp`)
and of selected configuration-parsing routines (`ctsTraffic/ctsConfig.cpp`)
against their natural-language specification.

The broker maintains three counters under one critical section:
`total_connections_remaining` (a 64-bit unsigned value), `pending_sockets` and
`active_sockets` (32-bit unsigned values), plus a clamped `pending_limit`.
Machine integers are modelled as `Nat`; wrap-around is written explicitly with
`% 2^64` / `% 2^32` exactly where the C++ computes an overflowing operation.
`ctFatalCondition` terminates the process, so operations that may hit it are
modelled as `Option`-valued functions where `none` marks the fatal branch.
-/

namespace CtsTraffic

/-- The value `MAXULONGLONG`: the sentinel for an unbounded iteration count. -/
def MAXULONGLONG : Nat := 2 ^ 64 - 1

/-- The slice of `ctsConfig::Settings` read by `ctsSocketBroker`.
`acceptFunction = true` means an `AcceptFunction` is configured (server role). -/
structure Config where
  acceptFunction : Bool
  serverExitLimit : Nat
  acceptLimit : Nat
  iterations : Nat
  connectionLimit : Nat
  connectionThrottleLimit : Nat
deriving Repr, DecidableEq

/-- The broker's counter state.  `doneSignaled` models the manual-reset
`done_event`. -/
structure Broker where
  total : Nat
  pendingLimit : Nat
  pending : Nat
  active : Nat
  doneSignaled : Bool
deriving Repr, DecidableEq

/-- The role-dependent initialisation of `total_connections_remaining` and the
raw `pending_limit` in `ctsSocketBroker::ctsSocketBroker` (lines 42-55): the
server uses `ServerExitLimit` and `AcceptLimit`; the client uses
`Iterations * ConnectionLimit` (64-bit unsigned multiplication, hence `% 2^64`)
with the `MAXULONGLONG` sentinel passed through, and `ConnectionLimit`. -/
def initCounters (cfg : Config) : Nat × Nat :=
  if cfg.acceptFunction then
    (cfg.serverExitLimit, cfg.acceptLimit)
  else
    (if cfg.iterations = MAXULONGLONG then MAXULONGLONG
     else cfg.iterations * cfg.connectionLimit % 2 ^ 64,
     cfg.connectionLimit)

/-- The clamp `if (pending_limit > total_connections_remaining) pending_limit =
static_cast<unsigned long>(total_connections_remaining)` (lines 57-59); the
cast truncates to 32 bits. -/
def clampPendingLimit (total pl : Nat) : Nat :=
  if total < pl then total % 2 ^ 32 else pl

/-- The constructor's initial fill loop (lines 83-96): while connections remain
and fewer than `pending_limit` sockets are pending, create a socket state,
increment `pending_sockets`, decrement `total_connections_remaining`; for the
client role stop as soon as `ConnectionThrottleLimit` equals the incremented
`pending_sockets`.  Structured as recursion on `total`, which the loop strictly
decreases.  Returns the final `(total, pending)`. -/
def ctorFill (cfg : Config) (pl : Nat) : Nat → Nat → Nat × Nat
  | 0, pending => (0, pending)
  | t + 1, pending =>
    if pending < pl then
      if cfg.acceptFunction = false ∧ cfg.connectionThrottleLimit = pending + 1 then
        (t, pending + 1)
      else
        ctorFill cfg pl t (pending + 1)
    else (t + 1, pending)

/-- The whole constructor `ctsSocketBroker::ctsSocketBroker`: role-dependent
counter initialisation, the `pending_limit` clamp, then the initial fill loop
starting from `pending_sockets = 0`, `active_sockets = 0`. -/
def mkBroker (cfg : Config) : Broker :=
  let t0 := (initCounters cfg).1
  let pl := clampPendingLimit t0 (initCounters cfg).2
  let r := ctorFill cfg pl t0 0
  ⟨r.1, pl, r.2, 0, false⟩

/-- The refill loop of `ctsSocketBroker::TimerCallback` (lines 217-235): while
`pending_sockets < pending_limit` and `total_connections_remaining > 0`, break
for the client role when `pending + active >= ConnectionLimit` or when
`pending >= ConnectionThrottleLimit`, otherwise create a socket state,
increment `pending_sockets` and decrement `total_connections_remaining`. -/
def timerFill (cfg : Config) (active pl : Nat) : Nat → Nat → Nat × Nat
  | 0, pending => (0, pending)
  | t + 1, pending =>
    if pending < pl then
      if cfg.acceptFunction = false ∧ cfg.connectionLimit ≤ pending + active then
        (t + 1, pending)
      else if cfg.acceptFunction = false ∧ cfg.connectionThrottleLimit ≤ pending then
        (t + 1, pending)
      else
        timerFill cfg active pl t (pending + 1)
    else (t + 1, pending)

/-- `ctsSocketBroker::TimerCallback` (lines 187-242), counter-relevant part:
reap closed sockets (no counter effect), then either signal `done_event` when
all three counters are zero, or — unless `done_event` is already signaled —
run the refill loop.  The returned `Bool` records whether `SetEvent` was called
on this tick. -/
def timerCallback (cfg : Config) (b : Broker) : Broker × Bool :=
  if b.total = 0 ∧ b.pending = 0 ∧ b.active = 0 then
    ({ b with doneSignaled := true }, true)
  else if b.doneSignaled then (b, false)
  else
    let r := timerFill cfg b.active b.pendingLimit b.total b.pending
    ({ b with total := r.1, pending := r.2 }, false)

/-- `ctsSocketBroker::initiating_io` (lines 123-134): fatal (modelled `none`)
when `pending_sockets == 0`; otherwise decrement `pending_sockets` and
increment `active_sockets`. -/
def initiating_io (b : Broker) : Option Broker :=
  if b.pending = 0 then none
  else some { b with pending := b.pending - 1, active := b.active + 1 }

/-- `ctsSocketBroker::closing` (lines 139-156): when `_was_active`, fatal if
`active_sockets == 0` else decrement it; otherwise fatal if
`pending_sockets == 0` else decrement it. -/
def closing (wasActive : Bool) (b : Broker) : Option Broker :=
  if wasActive then
    if b.active = 0 then none else some { b with active := b.active - 1 }
  else
    if b.pending = 0 then none else some { b with pending := b.pending - 1 }

/-- One observable operation on the broker after construction: a timer tick, a
successful `initiating_io`, or a successful `closing`. -/
inductive Step (cfg : Config) : Broker → Broker → Prop
  | timer (b : Broker) : Step cfg b (timerCallback cfg b).1
  | initIo (b b' : Broker) : initiating_io b = some b' → Step cfg b b'
  | close (w : Bool) (b b' : Broker) : closing w b = some b' → Step cfg b b'

/-- States of the broker reachable from construction by its operations. -/
inductive Reachable (cfg : Config) : Broker → Prop
  | init : Reachable cfg (mkBroker cfg)
  | step {b b' : Broker} : Reachable cfg b → Step cfg b b' → Reachable cfg b'

/-! ## Loop lemmas shared by several claims -/

/-- The constructor fill loop decrements `total` by exactly one per created
record: the final counters satisfy `total' ≤ total` and
`pending' = pending + (total - total')`. -/
theorem ctorFill_count (cfg : Config) (pl : Nat) :
    ∀ t pending, (ctorFill cfg pl t pending).1 ≤ t ∧
      (ctorFill cfg pl t pending).2 = pending + (t - (ctorFill cfg pl t pending).1) := by
  intro t
  induction t with
  | zero => intro pending; simp [ctorFill]
  | succ t ih =>
    intro pending
    rw [ctorFill]
    by_cases hpl : pending < pl
    · by_cases hbr : cfg.acceptFunction = false ∧ cfg.connectionThrottleLimit = pending + 1
      · simp [hpl, hbr]
      · have h := ih (pending + 1)
        simp [hpl, hbr]
        omega
    · simp [hpl]

/-- The timer refill loop decrements `total` by exactly one per created record:
`total' ≤ total` and `pending' = pending + (total - total')`. -/
theorem timerFill_count (cfg : Config) (active pl : Nat) :
    ∀ t pending, (timerFill cfg active pl t pending).1 ≤ t ∧
      (timerFill cfg active pl t pending).2 =
        pending + (t - (timerFill cfg active pl t pending).1) := by
  intro t
  induction t with
  | zero => intro pending; simp [timerFill]
  | succ t ih =>
    intro pending
    rw [timerFill]
    by_cases hpl : pending < pl
    · by_cases hcl : cfg.acceptFunction = false ∧ cfg.connectionLimit ≤ pending + active
      · simp [hpl, hcl]
      · by_cases hth : cfg.acceptFunction = false ∧ cfg.connectionThrottleLimit ≤ pending
        · simp [hpl, hcl, hth]
        · have h := ih (pending + 1)
          simp [hpl, hcl, hth]
          omega
    · simp [hpl]

/-- The constructor fill loop keeps `pending` at or below `pending_limit`. -/
theorem ctorFill_pending_le_pl (cfg : Config) (pl : Nat) :
    ∀ t pending, pending ≤ pl → (ctorFill cfg pl t pending).2 ≤ pl := by
  intro t
  induction t with
  | zero => intro pending h; simpa [ctorFill] using h
  | succ t ih =>
    intro pending h
    rw [ctorFill]
    by_cases hpl : pending < pl
    · by_cases hbr : cfg.acceptFunction = false ∧ cfg.connectionThrottleLimit = pending + 1
      · simp [hpl, hbr]
        omega
      · simp only [hpl, hbr, if_true, if_false]
        exact ih (pending + 1) (by omega)
    · simpa [hpl] using h

/-- For the client role, the constructor fill loop never pushes `pending`
beyond `ConnectionThrottleLimit`, provided it starts strictly below it. -/
theorem ctorFill_pending_le_throttle (cfg : Config) (pl : Nat)
    (hc : cfg.acceptFunction = false) :
    ∀ t pending, pending < cfg.connectionThrottleLimit →
      (ctorFill cfg pl t pending).2 ≤ cfg.connectionThrottleLimit := by
  intro t
  induction t with
  | zero => intro pending h; simp [ctorFill]; omega
  | succ t ih =>
    intro pending h
    rw [ctorFill]
    by_cases hpl : pending < pl
    · by_cases hbr : cfg.acceptFunction = false ∧ cfg.connectionThrottleLimit = pending + 1
      · simp [hpl, hbr]
      · simp only [hpl, hbr, if_true, if_false]
        exact ih (pending + 1) (by simp [hc] at hbr; omega)
    · simp [hpl]; omega

/-- For the client role, the timer refill loop keeps `pending + active` at or
below `ConnectionLimit` and `pending` at or below `ConnectionThrottleLimit`,
whenever both bounds hold on entry. -/
theorem timerFill_client_bounds (cfg : Config) (active pl : Nat)
    (hc : cfg.acceptFunction = false) :
    ∀ t pending, pending + active ≤ cfg.connectionLimit →
      pending ≤ cfg.connectionThrottleLimit →
      (timerFill cfg active pl t pending).2 + active ≤ cfg.connectionLimit ∧
      (timerFill cfg active pl t pending).2 ≤ cfg.connectionThrottleLimit := by
  intro t
  induction t with
  | zero => intro pending h1 h2; simp [timerFill]; omega
  | succ t ih =>
    intro pending h1 h2
    rw [timerFill]
    by_cases hpl : pending < pl
    · by_cases hcl : cfg.acceptFunction = false ∧ cfg.connectionLimit ≤ pending + active
      · simp [hpl, hcl]; omega
      · by_cases hth : cfg.acceptFunction = false ∧ cfg.connectionThrottleLimit ≤ pending
        · simp [hpl, hcl, hth]; omega
        · simp only [hpl, hcl, hth, if_true, if_false]
          simp [hc] at hcl hth
          exact ih (pending + 1) (by omega) (by omega)
    · simp [hpl]; omega

/-- The timer refill loop keeps `pending` at or below
`max pending pending_limit`; in particular it never exceeds `pending_limit`
when it starts at or below it. -/
theorem timerFill_pending_le_pl (cfg : Config) (active pl : Nat) :
    ∀ t pending, pending ≤ pl → (timerFill cfg active pl t pending).2 ≤ pl := by
  intro t
  induction t with
  | zero => intro pending h; simpa [timerFill] using h
  | succ t ih =>
    intro pending h
    rw [timerFill]
    by_cases hpl : pending < pl
    · by_cases hcl : cfg.acceptFunction = false ∧ cfg.connectionLimit ≤ pending + active
      · simpa [hpl, hcl] using h
      · by_cases hth : cfg.acceptFunction = false ∧ cfg.connectionThrottleLimit ≤ pending
        · simpa [hpl, hcl, hth] using h
        · simp only [hpl, hcl, hth, if_true, if_false]
          exact ih (pending + 1) (by omega)
    · simpa [hpl] using h

/-- The clamp never raises `pending_limit`. -/
theorem clampPendingLimit_le (total pl : Nat) : clampPendingLimit total pl ≤ pl := by
  unfold clampPendingLimit
  by_cases h : total < pl
  · simp [h]
    calc total % 2 ^ 32 ≤ total := Nat.mod_le _ _
      _ ≤ pl := Nat.le_of_lt h
  · simp [h]

/-- The clamped `pending_limit` never exceeds `total_connections_remaining`. -/
theorem clampPendingLimit_le_total (total pl : Nat) :
    clampPendingLimit total pl ≤ total := by
  unfold clampPendingLimit
  by_cases h : total < pl
  · simp [h, Nat.mod_le]
  · simp [h]; omega

/-- The timer refill loop stops only at the loop's exit condition: either its
`while` guard fails, or (client role) one of the two throttle breaks fired. -/
theorem timerFill_exit (cfg : Config) (active pl : Nat) :
    ∀ t pending,
      ¬((timerFill cfg active pl t pending).2 < pl ∧
          0 < (timerFill cfg active pl t pending).1) ∨
      (cfg.acceptFunction = false ∧
        (cfg.connectionLimit ≤ (timerFill cfg active pl t pending).2 + active ∨
         cfg.connectionThrottleLimit ≤ (timerFill cfg active pl t pending).2)) := by
  intro t
  induction t with
  | zero => intro pending; left; simp [timerFill]
  | succ t ih =>
    intro pending
    rw [timerFill]
    by_cases hpl : pending < pl
    · by_cases hcl : cfg.acceptFunction = false ∧ cfg.connectionLimit ≤ pending + active
      · right; exact ⟨hcl.1, by simp [hpl, hcl]⟩
      · by_cases hth : cfg.acceptFunction = false ∧ cfg.connectionThrottleLimit ≤ pending
        · right; exact ⟨hth.1, by simp [hpl, hcl, hth]⟩
        · simp only [hpl, hcl, hth, if_true, if_false]
          exact ih (pending + 1)
    · left; simp [hpl]

/-! ## Claim theorems -/

/-- C4: in both the constructor's fill loop and the timer callback's refill
loop, `total_connections_remaining` decreases by exactly one per constructed
connection record (`pending` grows by exactly the number of decrements), it
never drops below zero (`total' ≤ total` over naturals, with every decrement
guarded by `total > 0`), and when the remaining total is zero on entry no
record is constructed at all. -/
theorem c4_total_decrement (cfg : Config) (pl active t pending : Nat) :
    ((ctorFill cfg pl t pending).1 ≤ t ∧
      (ctorFill cfg pl t pending).2 =
        pending + (t - (ctorFill cfg pl t pending).1)) ∧
    ((timerFill cfg active pl t pending).1 ≤ t ∧
      (timerFill cfg active pl t pending).2 =
        pending + (t - (timerFill cfg active pl t pending).1)) ∧
    ctorFill cfg pl 0 pending = (0, pending) ∧
    timerFill cfg active pl 0 pending = (0, pending) :=
  ⟨ctorFill_count cfg pl t pending, timerFill_count cfg active pl t pending,
    rfl, rfl⟩

/-- A broker state whose `active_sockets` counter is zero while sockets are
still pending. -/
def brokerNoActive : Broker := ⟨5, 3, 2, 0, false⟩

/-- C6 counterexample: the claim asserts that for every state
`closing(was_active = true)` decrements `active_sockets` by one, but in a state
with `active_sockets = 0` the call hits `ctFatalCondition` (modelled as `none`)
and produces no successor state at all. -/
theorem c6_closing_counterexample :
    closing true brokerNoActive = none ∧ brokerNoActive.active = 0 := by
  decide

/-- C6 (amended): for every state with `pending_sockets > 0`, `initiating_io`
decrements `pending_sockets` and increments `active_sockets`, leaving their
sum, `total_connections_remaining` and `pending_limit` unchanged; for every
state whose respective counter is positive, `closing(was_active)` decrements
`active_sockets` when `was_active` and otherwise `pending_sockets`, changing no
other counter; when the respective counter is zero the call instead hits the
fatal condition. -/
theorem c6_counter_updates (b : Broker) :
    (0 < b.pending →
      initiating_io b =
        some { b with pending := b.pending - 1, active := b.active + 1 } ∧
      b.pending - 1 + (b.active + 1) = b.pending + b.active) ∧
    (b.pending = 0 → initiating_io b = none) ∧
    (0 < b.active → closing true b = some { b with active := b.active - 1 }) ∧
    (b.active = 0 → closing true b = none) ∧
    (0 < b.pending → closing false b = some { b with pending := b.pending - 1 }) ∧
    (b.pending = 0 → closing false b = none) := by
  refine ⟨fun h => ⟨?_, by omega⟩, fun h => ?_, fun h => ?_, fun h => ?_,
    fun h => ?_, fun h => ?_⟩ <;>
    simp [initiating_io, closing] <;> omega

/-- A broker state with both counters positive, used to instantiate the C6
theorem. -/
def brokerBusy : Broker := ⟨7, 4, 2, 3, false⟩

/-- Witness for the C6 theorem at a concrete state. -/
theorem c6_witness :
    initiating_io brokerBusy = some ⟨7, 4, 1, 4, false⟩ ∧
    closing true brokerBusy = some ⟨7, 4, 2, 2, false⟩ ∧
    closing false brokerBusy = some ⟨7, 4, 1, 3, false⟩ := by
  have h := c6_counter_updates brokerBusy
  exact ⟨(h.1 (by decide)).1, h.2.2.1 (by decide), h.2.2.2.2.1 (by decide)⟩

/-- A client configuration whose iteration count makes
`Iterations * ConnectionLimit` overflow 64 bits: `2^63` iterations of `2`
connections each. -/
def cfgWrap : Config := ⟨false, 0, 10, 2 ^ 63, 2, 1000⟩

/-- Written from the spec's words for comparison with the code: the client
total computed saturating at `MAXULONGLONG`, with the unbounded sentinel when
`Iterations` is unbounded. -/
def clientTotalSat (iterations connectionLimit : Nat) : Nat :=
  if iterations = MAXULONGLONG then MAXULONGLONG
  else min (iterations * connectionLimit) MAXULONGLONG

/-- C3 counterexample: for `Iterations = 2^63` and `ConnectionLimit = 2` the
constructor's 64-bit multiplication wraps to `0`, whereas a saturating product
would give `MAXULONGLONG`; the claim's "computed saturating ... for every value
of Iterations and ConnectionLimit" therefore fails on the code. -/
theorem c3_counterexample :
    (initCounters cfgWrap).1 = 0 ∧
    clientTotalSat cfgWrap.iterations cfgWrap.connectionLimit = MAXULONGLONG ∧
    (initCounters cfgWrap).1 ≠
      clientTotalSat cfgWrap.iterations cfgWrap.connectionLimit := by
  refine ⟨by decide, by decide, by decide⟩

/-- C3 (amended): at broker construction the server role initialises
`total_connections_remaining` to `ServerExitLimit` (and the raw pending limit
to `AcceptLimit`); the client role initialises it to
`Iterations * ConnectionLimit` reduced modulo `2^64` (wrapping, not
saturating), with the `MAXULONGLONG` sentinel when `Iterations` is unbounded;
`pending_limit` is then clamped so that it never exceeds the initial
`total_connections_remaining`. -/
theorem c3_init_totals (cfg : Config) :
    (cfg.acceptFunction = true →
      initCounters cfg = (cfg.serverExitLimit, cfg.acceptLimit)) ∧
    (cfg.acceptFunction = false →
      (initCounters cfg).1 =
        (if cfg.iterations = MAXULONGLONG then MAXULONGLONG
         else cfg.iterations * cfg.connectionLimit % 2 ^ 64) ∧
      (initCounters cfg).2 = cfg.connectionLimit) ∧
    (mkBroker cfg).pendingLimit ≤ (initCounters cfg).1 ∧
    (mkBroker cfg).pendingLimit =
      clampPendingLimit (initCounters cfg).1 (initCounters cfg).2 := by
  refine ⟨fun h => by simp [initCounters, h], fun h => by simp [initCounters, h],
    ?_, rfl⟩
  exact clampPendingLimit_le_total _ _

/-- A concrete server configuration: exit limit 6, accept limit 10. -/
def cfgServerSix : Config := ⟨true, 6, 10, 1, 4, 1000⟩

/-- Witness for the C3 theorem at a concrete server configuration: the total
is the exit limit and the pending limit got clamped below it. -/
theorem c3_witness :
    initCounters cfgServerSix = (6, 10) ∧
    (mkBroker cfgServerSix).pendingLimit ≤ (initCounters cfgServerSix).1 := by
  have h := c3_init_totals cfgServerSix
  exact ⟨h.1 rfl, h.2.2.1⟩

/-- C2: one timer tick signals the `done` event if and only if all three
counters — `total_connections_remaining`, `pending_sockets`, `active_sockets`
— are zero.  In any other state it never signals done; if shutdown was already
signaled the counters stay untouched, and otherwise the tick runs the refill
loop: `active` is untouched, each created record pairs one `pending` increment
with one `total` decrement, `pending` never exceeds `pending_limit` (when it
started within it), and the loop stops only when its `while` guard
(`pending < pending_limit` and `total > 0`) fails or, for the client role, one
of the connection-limit / throttle-limit breaks fired. -/
theorem c2_timer_done_iff (cfg : Config) (b : Broker) :
    ((timerCallback cfg b).2 = true ↔
      b.total = 0 ∧ b.pending = 0 ∧ b.active = 0) ∧
    (¬(b.total = 0 ∧ b.pending = 0 ∧ b.active = 0) →
      (b.doneSignaled = true → (timerCallback cfg b).1 = b) ∧
      (b.doneSignaled = false →
        (timerCallback cfg b).1.active = b.active ∧
        (timerCallback cfg b).1.pendingLimit = b.pendingLimit ∧
        (timerCallback cfg b).1.doneSignaled = false ∧
        (timerCallback cfg b).1.total ≤ b.total ∧
        (timerCallback cfg b).1.pending =
          b.pending + (b.total - (timerCallback cfg b).1.total) ∧
        (b.pending ≤ b.pendingLimit →
          (timerCallback cfg b).1.pending ≤ b.pendingLimit) ∧
        (¬((timerCallback cfg b).1.pending < b.pendingLimit ∧
            0 < (timerCallback cfg b).1.total) ∨
         (cfg.acceptFunction = false ∧
           (cfg.connectionLimit ≤ (timerCallback cfg b).1.pending + b.active ∨
            cfg.connectionThrottleLimit ≤ (timerCallback cfg b).1.pending))))) := by
  by_cases hz : b.total = 0 ∧ b.pending = 0 ∧ b.active = 0
  · exact ⟨by simp [timerCallback, hz], fun hnz => absurd hz hnz⟩
  · refine ⟨?_, fun _ => ⟨fun hd => by simp [timerCallback, hz, hd], fun hd => ?_⟩⟩
    · by_cases hd : b.doneSignaled <;> simp [timerCallback, hz, hd]
    · have hcount := timerFill_count cfg b.active b.pendingLimit b.total b.pending
      have hle := timerFill_pending_le_pl cfg b.active b.pendingLimit b.total b.pending
      have hexit := timerFill_exit cfg b.active b.pendingLimit b.total b.pending
      simp only [timerCallback, hz, hd, if_false, Bool.false_eq_true]
      exact ⟨trivial, trivial, trivial, hcount.1, hcount.2, hle, hexit⟩

/-- A broker state with work remaining, used to instantiate the C2 theorem. -/
def brokerRefill : Broker := ⟨9, 3, 1, 1, false⟩

/-- A client configuration with connection limit 4 and throttle limit 2. -/
def cfgRefill : Config := ⟨false, 0, 10, 3, 4, 2⟩

/-- Witness for the C2 theorem at a concrete state: the tick does not signal
done and refills `pending` up to the throttle limit. -/
theorem c2_witness :
    (timerCallback cfgRefill brokerRefill).2 = false ∧
    (timerCallback cfgRefill brokerRefill).1.pending =
      brokerRefill.pending + (brokerRefill.total -
        (timerCallback cfgRefill brokerRefill).1.total) := by
  have h := c2_timer_done_iff cfgRefill brokerRefill
  exact ⟨by decide, ((h.2 (by decide)).2 rfl).2.2.2.2.1⟩

/-- C1: in every broker state reachable by construction, timer ticks,
`initiating_io` and `closing`, the client role (no `AcceptFunction`) satisfies
`pending_sockets + active_sockets ≤ ConnectionLimit` and
`pending_sockets ≤ ConnectionThrottleLimit`.  The throttle limit is positive in
every configuration `ctsConfig` can produce (it defaults to 1000 and
`set_throttleConnections` maps an explicit 0 to `MAXUINT32`), which the
constructor's equality-based throttle break relies on. -/
theorem c1_client_limits (cfg : Config) (b : Broker) (hreach : Reachable cfg b)
    (hclient : cfg.acceptFunction = false)
    (hthrottle : 1 ≤ cfg.connectionThrottleLimit) :
    b.pending + b.active ≤ cfg.connectionLimit ∧
    b.pending ≤ cfg.connectionThrottleLimit := by
  induction hreach with
  | init =>
    have hpl2 : (initCounters cfg).2 = cfg.connectionLimit := by
      simp [initCounters, hclient]
    have hclamp :
        clampPendingLimit (initCounters cfg).1 (initCounters cfg).2 ≤
          cfg.connectionLimit := hpl2 ▸ clampPendingLimit_le _ _
    have hfill := ctorFill_pending_le_pl cfg
      (clampPendingLimit (initCounters cfg).1 (initCounters cfg).2)
      (initCounters cfg).1 0 (Nat.zero_le _)
    have hthr := ctorFill_pending_le_throttle cfg
      (clampPendingLimit (initCounters cfg).1 (initCounters cfg).2) hclient
      (initCounters cfg).1 0 hthrottle
    exact ⟨by simpa [mkBroker] using le_trans hfill hclamp, by simpa [mkBroker] using hthr⟩
  | step hr hs ih =>
    rename_i s s'
    cases hs with
    | timer _ =>
      by_cases hz : s.total = 0 ∧ s.pending = 0 ∧ s.active = 0
      · simp [timerCallback, hz]
      · by_cases hd : s.doneSignaled
        · simpa [timerCallback, hz, hd] using ih
        · have hb := timerFill_client_bounds cfg s.active s.pendingLimit hclient
            s.total s.pending ih.1 ih.2
          simpa [timerCallback, hz, hd] using hb
    | initIo _ _ h =>
      unfold initiating_io at h
      by_cases hp : s.pending = 0
      · simp [hp] at h
      · simp [hp] at h
        subst h
        constructor <;> simp <;> omega
    | close w _ _ h =>
      unfold closing at h
      cases w with
      | true =>
        by_cases ha : s.active = 0
        · simp [ha] at h
        · simp [ha] at h
          subst h
          constructor <;> simp <;> omega
      | false =>
        by_cases hp : s.pending = 0
        · simp [hp] at h
        · simp [hp] at h
          subst h
          constructor <;> simp <;> omega

/-- A client configuration with iterations 3, connection limit 4, throttle
limit 2, used to instantiate the C1 theorem. -/
def cfgClientW : Config := ⟨false, 0, 10, 3, 4, 2⟩

/-- Witness for the C1 theorem at the freshly constructed broker of a concrete
client configuration. -/
theorem c1_witness :
    (mkBroker cfgClientW).pending + (mkBroker cfgClientW).active ≤
      cfgClientW.connectionLimit ∧
    (mkBroker cfgClientW).pending ≤ cfgClientW.connectionThrottleLimit :=
  c1_client_limits cfgClientW (mkBroker cfgClientW) Reachable.init rfl
    (by decide)

/-! ## The per-record calling protocol (claim C5) -/

/-- The lifecycle position of one connection record as the broker's callers
see it: created (pending), after its `initiating_io` call (active), or after
its `closing` call. -/
inductive RecState
  | recPending
  | recActive
  | recClosed
deriving Repr, DecidableEq

/-- One externally observable event on the broker: creation of a record, the
record `i` calling `initiating_io`, or the record `i` calling
`closing(wasActive)`. -/
inductive BrokerEv
  | create
  | initIo (i : Nat)
  | close (i : Nat) (wasActive : Bool)
deriving Repr, DecidableEq

/-- The calling protocol of claim C5, as a partial transition on the record
ledger: a record calls `initiating_io` at most once and only while pending
(afterwards it is active, so a second call is not protocol-valid), calls
`closing` exactly once (afterwards it is closed), and passes
`wasActive = true` exactly when it called `initiating_io` before —
so `initiating_io` always precedes `closing true`. -/
def recsStep (recs : List RecState) : BrokerEv → Option (List RecState)
  | .create => some (recs ++ [.recPending])
  | .initIo i =>
    if h : i < recs.length then
      if recs.get ⟨i, h⟩ = RecState.recPending then some (recs.set i .recActive)
      else none
    else none
  | .close i w =>
    if h : i < recs.length then
      if recs.get ⟨i, h⟩ = (if w then RecState.recActive else RecState.recPending)
      then some (recs.set i .recClosed)
      else none
    else none

/-- Folding the calling protocol over a list of events; `none` marks a trace
that violates the protocol. -/
def runRecs (recs : List RecState) : List BrokerEv → Option (List RecState)
  | [] => some recs
  | e :: es =>
    match recsStep recs e with
    | some r => runRecs r es
    | none => none

/-- The broker's counter updates for one event, exactly as the code performs
them: creation pairs a `pending_sockets` increment with a
`total_connections_remaining` decrement (constructor and timer loops), and the
two notifications run `initiating_io` / `closing`, whose `none` results are
the `ctFatalCondition` branches. -/
def evApply (b : Broker) : BrokerEv → Option Broker
  | .create => some { b with pending := b.pending + 1, total := b.total - 1 }
  | .initIo _ => initiating_io b
  | .close _ w => closing w b

/-- Folding the broker's counter updates over a trace; `none` marks a trace on
which the broker hit a fatal condition. -/
def runBroker (b : Broker) : List BrokerEv → Option Broker
  | [] => some b
  | e :: es =>
    match evApply b e with
    | some b' => runBroker b' es
    | none => none

/-- The number of records currently in state `s`. -/
def countRec (s : RecState) (recs : List RecState) : Nat :=
  recs.countP fun r => r = s

theorem countRec_append_pending (recs : List RecState) :
    countRec .recPending (recs ++ [.recPending]) =
      countRec .recPending recs + 1 := by
  simp [countRec]

theorem countRec_append_other (s : RecState) (recs : List RecState)
    (h : ¬s = .recPending) :
    countRec s (recs ++ [.recPending]) = countRec s recs := by
  simp [countRec, List.countP_append, List.countP_singleton]
  intro he
  exact absurd he.symm h

/-- Setting index `i` away from its current state moves one unit of count. -/
theorem countRec_set (s v : RecState) (recs : List RecState) (i : Nat)
    (h : i < recs.length) :
    countRec s (recs.set i v) =
      countRec s recs - (if recs[i] = s then 1 else 0) +
        (if v = s then 1 else 0) := by
  simp only [countRec, List.countP_set _ _ _ _ h]
  by_cases h1 : recs[i] = s <;> by_cases h2 : v = s <;> simp [h1, h2]

/-- A record observed in state `s` witnesses a positive count. -/
theorem countRec_pos (s : RecState) (recs : List RecState) (i : Nat)
    (h : i < recs.length) (hs : recs[i] = s) :
    0 < countRec s recs := by
  rw [countRec, List.countP_pos_iff]
  exact ⟨recs[i], List.getElem_mem h, by simp [hs]⟩

/-- C5: whenever the counters agree with the record ledger (`pending_sockets`
counts the pending records, `active_sockets` the active ones) and a trace of
events obeys the calling protocol — `initiating_io` at most once per record
and only while pending, `closing` exactly once with `wasActive = true` exactly
when `initiating_io` preceded — the broker executes the whole trace without
ever reaching a fatal-condition branch (`runBroker` never returns `none`), and
the agreement is preserved.  In particular `pending_sockets` is never 0 when
`initiating_io` or `closing(false)` runs and `active_sockets` is never 0 when
`closing(true)` runs.  The initial state (no records, both counters zero, or
any constructor-filled state with its pending records) satisfies the
agreement. -/
theorem c5_protocol_no_fatal (evs : List BrokerEv) :
    ∀ (recs : List RecState) (b : Broker),
      b.pending = countRec .recPending recs →
      b.active = countRec .recActive recs →
      ∀ r, runRecs recs evs = some r →
        ∃ b', runBroker b evs = some b' ∧
          b'.pending = countRec .recPending r ∧
          b'.active = countRec .recActive r := by
  induction evs with
  | nil =>
    intro recs b hp ha r hr
    simp only [runRecs] at hr
    cases hr
    exact ⟨b, rfl, hp, ha⟩
  | cons e es ih =>
    intro recs b hp ha r hr
    simp only [runRecs] at hr
    cases e with
    | create =>
      simp only [recsStep] at hr
      have hb : evApply b .create =
          some { b with pending := b.pending + 1, total := b.total - 1 } := rfl
      have := ih (recs ++ [.recPending])
        { b with pending := b.pending + 1, total := b.total - 1 }
        (by simp [hp, countRec_append_pending])
        (by simp [ha, countRec_append_other]) r hr
      obtain ⟨b', hrun, h1, h2⟩ := this
      exact ⟨b', by simp only [runBroker, hb]; exact hrun, h1, h2⟩
    | initIo i =>
      simp only [recsStep] at hr
      by_cases hlen : i < recs.length
      · simp only [hlen, dif_pos] at hr
        by_cases hpend : recs[i] = RecState.recPending
        · simp only [List.get_eq_getElem, hpend, if_pos] at hr
          have hpos : 0 < countRec .recPending recs :=
            countRec_pos _ recs i hlen hpend
          have hbne : ¬b.pending = 0 := by omega
          have hb : evApply b (.initIo i) =
              some { b with pending := b.pending - 1, active := b.active + 1 } := by
            simp [evApply, initiating_io, hbne]
          have hset1 : countRec .recPending (recs.set i .recActive) =
              countRec .recPending recs - 1 := by
            rw [countRec_set _ _ _ _ hlen]
            simp [hpend]
          have hset2 : countRec .recActive (recs.set i .recActive) =
              countRec .recActive recs + 1 := by
            rw [countRec_set _ _ _ _ hlen]
            simp [hpend]
          have := ih (recs.set i .recActive)
            { b with pending := b.pending - 1, active := b.active + 1 }
            (by simp [hset1, hp]) (by simp [hset2, ha]) r hr
          obtain ⟨b', hrun, h1, h2⟩ := this
          exact ⟨b', by simp only [runBroker, hb]; exact hrun, h1, h2⟩
        · simp [List.get_eq_getElem, hpend] at hr
      · simp [hlen] at hr
    | close i w =>
      simp only [recsStep] at hr
      by_cases hlen : i < recs.length
      · simp only [hlen, dif_pos] at hr
        by_cases hst : recs[i] =
            (if w then RecState.recActive else RecState.recPending)
        · simp only [List.get_eq_getElem, hst, if_pos] at hr
          cases w with
          | true =>
            have hact : recs[i] = RecState.recActive := by simpa using hst
            have hpos : 0 < countRec .recActive recs :=
              countRec_pos _ recs i hlen hact
            have hbne : ¬b.active = 0 := by omega
            have hb : evApply b (.close i true) =
                some { b with active := b.active - 1 } := by
              simp [evApply, closing, hbne]
            have hset1 : countRec .recPending (recs.set i .recClosed) =
                countRec .recPending recs := by
              rw [countRec_set _ _ _ _ hlen]
              simp [hact]
            have hset2 : countRec .recActive (recs.set i .recClosed) =
                countRec .recActive recs - 1 := by
              rw [countRec_set _ _ _ _ hlen]
              simp [hact]
            have := ih (recs.set i .recClosed) { b with active := b.active - 1 }
              (by simp [hset1, hp]) (by simp [hset2, ha]) r hr
            obtain ⟨b', hrun, h1, h2⟩ := this
            exact ⟨b', by simp only [runBroker, hb]; exact hrun, h1, h2⟩
          | false =>
            have hpd : recs[i] = RecState.recPending := by simpa using hst
            have hpos : 0 < countRec .recPending recs :=
              countRec_pos _ recs i hlen hpd
            have hbne : ¬b.pending = 0 := by omega
            have hb : evApply b (.close i false) =
                some { b with pending := b.pending - 1 } := by
              simp [evApply, closing, hbne]
            have hset1 : countRec .recPending (recs.set i .recClosed) =
                countRec .recPending recs - 1 := by
              rw [countRec_set _ _ _ _ hlen]
              simp [hpd]
            have hset2 : countRec .recActive (recs.set i .recClosed) =
                countRec .recActive recs := by
              rw [countRec_set _ _ _ _ hlen]
              simp [hpd]
            have := ih (recs.set i .recClosed) { b with pending := b.pending - 1 }
              (by simp [hset1, hp]) (by simp [hset2, ha]) r hr
            obtain ⟨b', hrun, h1, h2⟩ := this
            exact ⟨b', by simp only [runBroker, hb]; exact hrun, h1, h2⟩
        · simp [List.get_eq_getElem, hst] at hr
      · simp [hlen] at hr

/-- A protocol-respecting trace: create two records, the first becomes active
and closes as active, the second closes while still pending. -/
def traceW : List BrokerEv :=
  [.create, .create, .initIo 0, .close 0 true, .close 1 false]

/-- An initial broker state for the C5 witness: no records yet. -/
def brokerStart : Broker := ⟨8, 4, 0, 0, false⟩

/-- Witness for the C5 theorem on a concrete protocol-respecting trace from an
empty ledger: the broker finishes the trace without any fatal condition. -/
theorem c5_witness :
    ∃ b', runBroker brokerStart traceW = some b' ∧
      b'.pending = countRec .recPending [.recClosed, .recClosed] ∧
      b'.active = countRec .recActive [.recClosed, .recClosed] :=
  c5_protocol_no_fatal traceW [] brokerStart (by decide) (by decide)
    [.recClosed, .recClosed] (by decide)

/-! ## Configuration parsing (`ctsTraffic/ctsConfig.cpp`) -/

/-- The wide NUL character which `ParseArgument` temporarily writes over the
`:` delimiter. -/
def NULC : Char := Char.ofNat 0

/-- Modelled from the spec: `ctString::iordinal_equals` lives in
`ctl/ctString.hpp`, which is not under `src/`; per its uses ("case doesn't
matter", the old/new option spellings) it is case-insensitive ordinal string
equality. -/
def iordinalEquals (a b : List Char) : Bool :=
  (a.map Char.toLower) == (b.map Char.toLower)

/-- `ParseArgument` (ctsConfig.cpp lines 185-200) over the NUL-free character
content of the argument C string: find the first `:`; throw `invalid_argument`
(`.error ()`) when no `:` is followed by at least one character; otherwise
overwrite the `:` with NUL, compare the now NUL-terminated prefix with the
expected parameter name case-insensitively, restore the `:`, and return the
index one past the `:` on a match (`nullptr` modelled as `none`) together
with the final buffer contents. -/
def ParseArgument (input expected : List Char) :
    Except Unit (Option Nat × List Char) :=
  let d := input.findIdx (fun c => c == ':')
  if input.length ≤ d + 1 then .error ()
  else
    let nulled := input.set d NULC
    let ret :=
      if iordinalEquals expected (nulled.takeWhile (fun c => c != NULC)) then
        some (d + 1)
      else none
    .ok (ret, nulled.set d ':')

/-- The two buffer-mode flags set by `-verify`. -/
structure VerifySettings where
  shouldVerifyBuffers : Bool
  useSharedBuffer : Bool
deriving Repr, DecidableEq

def strAlways : List Char := ("always").toList

def strData : List Char := ("data").toList

def strNever : List Char := ("never").toList

def strConnection : List Char := ("connection").toList

/-- `set_shouldVerifyBuffers` (lines 1606-1628): with `-verify:<value>`
present, `always`/`data` select per-connection verification buffers,
`never`/`connection` select the shared read-only buffer, anything else throws
`invalid_argument`; with the argument absent the incoming settings are kept. -/
def set_shouldVerifyBuffers (arg : Option (List Char)) (s : VerifySettings) :
    Except Unit VerifySettings :=
  match arg with
  | none => .ok s
  | some value =>
    if iordinalEquals strAlways value || iordinalEquals strData value then
      .ok ⟨true, false⟩
    else if iordinalEquals strNever value || iordinalEquals strConnection value then
      .ok ⟨false, true⟩
    else .error ()

/-- The `Startup` slice around buffer verification (lines 2183-2194): the
defaults `ShouldVerifyBuffers = true`, `UseSharedBuffer = false` are set,
`set_shouldVerifyBuffers` runs on the `-verify` argument, then a UDP
non-listener (client) is forced off the shared buffer. -/
def startupVerify (protocolUdp isListening : Bool)
    (arg : Option (List Char)) : Except Unit VerifySettings :=
  match set_shouldVerifyBuffers arg ⟨true, false⟩ with
  | .error e => .error e
  | .ok s1 =>
    if protocolUdp && !isListening then .ok { s1 with useSharedBuffer := false }
    else .ok s1

/-- `set_prepostrecvs` (lines 1507-1525): an explicitly parsed value of 0
throws `invalid_argument`, otherwise it is stored; with `-PrePostRecvs`
absent the value defaults to 1.  `arg` carries the already-parsed
`unsigned long` value. -/
def set_prepostrecvs (arg : Option Nat) : Except Unit Nat :=
  match arg with
  | none => .ok 1
  | some v => if v = 0 then .error () else .ok v

/-- The `Startup` sequence for receive concurrency (lines 2195-2198): after
`set_prepostrecvs`, TCP with `ShouldVerifyBuffers` and `PrePostRecvs > 1`
throws `invalid_argument`. -/
def startupPrePostRecvs (protocolTcp shouldVerify : Bool) (arg : Option Nat) :
    Except Unit Nat :=
  match set_prepostrecvs arg with
  | .error e => .error e
  | .ok p =>
    if protocolTcp && shouldVerify && decide (1 < p) then .error ()
    else .ok p

/-- `set_port` (lines 1009-1024) together with the range check of
`as_integral<unsigned short>` (a parsed value above `MAXWORD = 65535` throws)
and the initialisation default `Port = 4444`: absent `-Port` keeps the
default; an explicit 0 throws. -/
def set_port (arg : Option Nat) : Except Unit Nat :=
  match arg with
  | none => .ok 4444
  | some v =>
    if 65535 < v then .error ()
    else if v = 0 then .error () else .ok v

/-- `set_timelimit` (lines 1637-1652): with `-timelimit:<v>` present the
parsed value is stored into `TimeLimit` and then the guard tests
`Settings->Port == 0` — the port, not the parsed time limit — and throws
exactly when the port is zero. -/
def set_timelimit (port timeLimit : Nat) (arg : Option Nat) :
    Except Unit Nat :=
  match arg with
  | none => .ok timeLimit
  | some v => if port = 0 then .error () else .ok v

/-- `set_throttleConnections` (ctsConfig.cpp lines 1087-1106) combined with
the initialisation default `ConnectionThrottleLimit = 1000`: an absent
`-throttleconnections` keeps the default and an explicit 0 ("no limit") is
stored as `MAXUINT32`, so the stored limit is never zero. -/
def set_throttleConnections (arg : Option Nat) : Nat :=
  match arg with
  | none => 1000
  | some v => if v = 0 then 2 ^ 32 - 1 else v

/-- Every configuration `ctsConfig` can produce has a positive
`ConnectionThrottleLimit`; this discharges the positivity hypothesis of the
broker invariant. -/
theorem set_throttleConnections_pos (arg : Option Nat) :
    1 ≤ set_throttleConnections arg := by
  cases arg with
  | none => simp [set_throttleConnections]
  | some v =>
    by_cases hv : v = 0 <;> simp [set_throttleConnections, hv]
    omega

/-- Matching strings under `iordinalEquals` have equal length. -/
theorem iordinalEquals_length (a b : List Char)
    (h : iordinalEquals a b = true) : a.length = b.length := by
  rw [iordinalEquals, beq_iff_eq] at h
  simpa using congrArg List.length h

/-- C7: `ctsConfig::Startup` throws `invalid_argument` whenever TCP protocol,
byte-level verification (`ShouldVerifyBuffers`) and `PrePostRecvs > 1` are
combined; hence a configuration that survives `Startup` with more than one
concurrent receive per connection on TCP has connection-only verification.
`PrePostRecvs` defaults to 1 when `-PrePostRecvs` is absent and an explicit 0
is rejected. -/
theorem c7_prepostrecvs_serial (tcp verify : Bool) (arg : Option Nat) :
    set_prepostrecvs none = .ok 1 ∧
    set_prepostrecvs (some 0) = .error () ∧
    (∀ v, 1 < v → startupPrePostRecvs true true (some v) = .error ()) ∧
    (∀ p, startupPrePostRecvs tcp verify arg = .ok p →
      tcp = true → 1 < p → verify = false) := by
  refine ⟨rfl, rfl, fun v hv => ?_, fun p h ht hp => ?_⟩
  · have hvne : ¬v = 0 := by omega
    simp [startupPrePostRecvs, set_prepostrecvs, hvne, hv]
  · subst ht
    by_contra hverify
    rw [Bool.not_eq_false] at hverify
    subst hverify
    cases arg with
    | none =>
      simp [startupPrePostRecvs, set_prepostrecvs] at h
      omega
    | some v =>
      by_cases hvz : v = 0
      · simp [startupPrePostRecvs, set_prepostrecvs, hvz] at h
      · by_cases hv1 : 1 < v
        · simp [startupPrePostRecvs, set_prepostrecvs, hvz, hv1] at h
        · simp [startupPrePostRecvs, set_prepostrecvs, hvz, hv1] at h
          omega

/-- Witness for the C7 theorem: the combination TCP + verification +
`PrePostRecvs = 5` is rejected, while the default is 1. -/
theorem c7_witness :
    startupPrePostRecvs true true (some 5) = .error () ∧
    set_prepostrecvs none = .ok 1 :=
  ⟨(c7_prepostrecvs_serial true true (some 5)).2.2.1 5 (by decide),
    (c7_prepostrecvs_serial true true none).1⟩

/-- C8: `-verify:connection` (or the old `never`) maps to
`ShouldVerifyBuffers = false, UseSharedBuffer = true`; `-verify:data` (or
`always`) maps to `ShouldVerifyBuffers = true, UseSharedBuffer = false`,
which is also the `Startup` default when `-verify` is absent; any other value
is rejected; and for a UDP client (`!IsListening()`) every successful
`Startup` ends with `UseSharedBuffer = false`. -/
theorem c8_verify_mapping (udp listening : Bool) (arg : Option (List Char))
    (s : VerifySettings) (v : List Char) :
    ((iordinalEquals strNever v = true ∨ iordinalEquals strConnection v = true) →
      set_shouldVerifyBuffers (some v) s = .ok ⟨false, true⟩) ∧
    ((iordinalEquals strAlways v = true ∨ iordinalEquals strData v = true) →
      set_shouldVerifyBuffers (some v) s = .ok ⟨true, false⟩) ∧
    (iordinalEquals strAlways v = false → iordinalEquals strData v = false →
      iordinalEquals strNever v = false → iordinalEquals strConnection v = false →
      set_shouldVerifyBuffers (some v) s = .error ()) ∧
    startupVerify udp listening none = .ok ⟨true, false⟩ ∧
    (∀ s', startupVerify true false arg = .ok s' → s'.useSharedBuffer = false) := by
  refine ⟨fun h => ?_, fun h => ?_, fun h1 h2 h3 h4 => ?_, ?_, fun s' h => ?_⟩
  · have hlen : v.length = 5 ∨ v.length = 10 := by
      cases h with
      | inl hn =>
        have hl := iordinalEquals_length _ _ hn
        exact Or.inl (by rw [← hl]; decide)
      | inr hc =>
        have hl := iordinalEquals_length _ _ hc
        exact Or.inr (by rw [← hl]; decide)
    have ha : iordinalEquals strAlways v = false := by
      by_contra hx
      rw [Bool.not_eq_false] at hx
      have hl := iordinalEquals_length _ _ hx
      have h6 : strAlways.length = 6 := by decide
      omega
    have hd : iordinalEquals strData v = false := by
      by_contra hx
      rw [Bool.not_eq_false] at hx
      have hl := iordinalEquals_length _ _ hx
      have h4 : strData.length = 4 := by decide
      omega
    rcases h with hn | hc
    · simp [set_shouldVerifyBuffers, ha, hd, hn]
    · simp [set_shouldVerifyBuffers, ha, hd, hc]
  · rcases h with ha | hd
    · simp [set_shouldVerifyBuffers, ha]
    · simp [set_shouldVerifyBuffers, hd]
  · simp [set_shouldVerifyBuffers, h1, h2, h3, h4]
  · by_cases hc : (udp && !listening) = true <;>
      simp [startupVerify, set_shouldVerifyBuffers, hc]
  · cases harg : set_shouldVerifyBuffers arg ⟨true, false⟩ with
    | error e => simp [startupVerify, harg] at h
    | ok s1 =>
      simp [startupVerify, harg] at h
      rw [← h]

/-- Witness for the C8 theorem: `-verify:connection` yields the shared buffer
without byte verification, and the UDP client forces the shared buffer off. -/
theorem c8_witness :
    set_shouldVerifyBuffers (some strConnection) ⟨true, false⟩ =
      .ok ⟨false, true⟩ ∧
    ∀ s', startupVerify true false (some strNever) = .ok s' →
      s'.useSharedBuffer = false := by
  have h := c8_verify_mapping true false (some strNever) ⟨true, false⟩
    strConnection
  exact ⟨h.1 (Or.inr (by decide)), fun s' hs => h.2.2.2.2 s' hs⟩

/-- C10: the zero-guard in `set_timelimit` is dead code.  For any port that
`set_port` produced (the default 4444 or a validated explicit value, never 0)
and every parsed time-limit value `v` — including `v = 0` — `set_timelimit`
stores `v` and never throws, because its guard tests the port, which is
nonzero; the guard fires only in the unreachable `port = 0` state. -/
theorem c10_timelimit_guard_dead (portArg : Option Nat) (p t0 v : Nat)
    (hp : set_port portArg = .ok p) :
    set_timelimit p t0 (some v) = .ok v ∧ 0 < p ∧
    (∀ t1 u, set_timelimit 0 t1 (some u) = .error ()) := by
  have hpos : 0 < p := by
    cases portArg with
    | none =>
      simp [set_port] at hp
      omega
    | some w =>
      by_cases hw1 : 65535 < w
      · simp [set_port, hw1] at hp
      · by_cases hw0 : w = 0
        · simp [set_port, hw1, hw0] at hp
        · simp [set_port, hw1, hw0] at hp
          omega
  have hne : ¬p = 0 := by omega
  exact ⟨by simp [set_timelimit, hne], hpos, fun t1 u => by simp [set_timelimit]⟩

/-- Witness for the C10 theorem with the default port and the parsed time
limit 0: the value is stored and nothing is thrown. -/
theorem c10_witness :
    set_timelimit 4444 0 (some 0) = .ok 0 ∧ (0 : Nat) < 4444 :=
  ⟨(c10_timelimit_guard_dead none 4444 0 0 rfl).1,
    (c10_timelimit_guard_dead none 4444 0 0 rfl).2.1⟩

/-- Writing back the element already at index `i` leaves a list unchanged. -/
theorem set_getElem_self {α : Type _} :
    ∀ (l : List α) (i : Nat), (h : i < l.length) → l.set i l[i] = l
  | [], i, h => by simp at h
  | a :: t, 0, _ => by simp
  | a :: t, i + 1, h => by
    simp only [List.set_cons_succ, List.getElem_cons_succ]
    rw [set_getElem_self t i (by simpa using h)]

/-- In a NUL-free buffer, overwriting index `d` with NUL makes the C string
visible up to `d` exactly the first `d` characters. -/
theorem takeWhile_set_nul :
    ∀ (l : List Char) (d : Nat), d < l.length → NULC ∉ l →
      (l.set d NULC).takeWhile (fun c => c != NULC) = l.take d
  | [], d, h, _ => by simp at h
  | a :: t, 0, _, _ => by simp [List.takeWhile_cons]
  | a :: t, d + 1, h, hn => by
    have ha : (a != NULC) = true := by
      simp only [bne_iff_ne, ne_eq]
      intro he
      exact hn (he ▸ List.mem_cons_self a t)
    simp only [List.set_cons_succ, List.takeWhile_cons, ha, if_true,
      List.take_succ_cons, List.cons.injEq, true_and]
    exact takeWhile_set_nul t d (by simpa using h)
      (fun hm => hn (List.mem_cons_of_mem a hm))

/-- The character at the first-colon index is a colon. -/
theorem findIdx_colon_getElem (input : List Char)
    (h : input.findIdx (fun c => c == ':') < input.length) :
    input[input.findIdx (fun c => c == ':')] = ':' := by
  have := @List.findIdx_getElem Char (fun c => c == ':') input h
  simpa using this

/-- C9: over a NUL-free argument buffer, `ParseArgument` throws
`invalid_argument` exactly when the buffer contains no `:` followed by at
least one character; whenever it returns, the buffer contents are
byte-for-byte what was passed in (the temporarily written NUL is always
restored), and it returns a pointer — the index one past the first `:` —
exactly when the buffer's content up to its first `:` equals the expected
parameter name case-insensitively, returning `nullptr` otherwise. -/
theorem c9_parse_argument (input expected : List Char) (hnul : NULC ∉ input) :
    (ParseArgument input expected = .error () ↔
      ¬∃ i, ∃ h : i < input.length, input[i] = ':' ∧ i + 1 < input.length) ∧
    (∀ ret buf, ParseArgument input expected = .ok (ret, buf) →
      buf = input ∧
      (ret = some (input.findIdx (fun c => c == ':') + 1) ↔
        (input.take (input.findIdx (fun c => c == ':'))).map Char.toLower =
          expected.map Char.toLower) ∧
      (ret = none ↔
        ¬(input.take (input.findIdx (fun c => c == ':'))).map Char.toLower =
          expected.map Char.toLower)) := by
  have hthrow : input.length ≤ input.findIdx (fun c => c == ':') + 1 ↔
      ¬∃ i, ∃ h : i < input.length, input[i] = ':' ∧ i + 1 < input.length := by
    constructor
    · rintro hle ⟨i, hi, hci, hsucc⟩
      have hd : input.findIdx (fun c => c == ':') ≤ i := by
        by_contra hgt
        push_neg at hgt
        have := List.not_of_lt_findIdx hgt
        simp [hci] at this
      omega
    · intro hne
      by_contra hlt
      push_neg at hlt
      have hdlen : input.findIdx (fun c => c == ':') < input.length := by omega
      exact hne ⟨input.findIdx (fun c => c == ':'), hdlen,
        findIdx_colon_getElem input hdlen, by omega⟩
  constructor
  · rw [ParseArgument]
    by_cases hc : input.length ≤ input.findIdx (fun c => c == ':') + 1
    · simp only [hc, if_true]
      exact ⟨fun _ => hthrow.mp hc, fun _ => trivial⟩
    · simp only [hc, if_false]
      exact ⟨fun h => absurd h (by simp), fun hne => absurd (hthrow.mpr hne) hc⟩
  · intro ret buf hok
    rw [ParseArgument] at hok
    by_cases hc : input.length ≤ input.findIdx (fun c => c == ':') + 1
    · simp [hc] at hok
    · simp only [hc, if_false, Except.ok.injEq, Prod.mk.injEq] at hok
      obtain ⟨hret, hbuf⟩ := hok
      have hdlen : input.findIdx (fun c => c == ':') < input.length := by omega
      have hrestore : (input.set (input.findIdx (fun c => c == ':')) NULC).set
          (input.findIdx (fun c => c == ':')) ':' = input := by
        rw [List.set_set]
        have hself := set_getElem_self input
          (input.findIdx (fun c => c == ':')) hdlen
        rwa [findIdx_colon_getElem input hdlen] at hself
      have htw : (input.set (input.findIdx (fun c => c == ':')) NULC).takeWhile
          (fun c => c != NULC) =
            input.take (input.findIdx (fun c => c == ':')) :=
        takeWhile_set_nul input _ hdlen hnul
      rw [htw] at hret
      refine ⟨hbuf ▸ hrestore, ?_, ?_⟩
      · by_cases hm : iordinalEquals expected
            (input.take (input.findIdx (fun c => c == ':'))) = true
        · rw [iordinalEquals, beq_iff_eq] at hm
          simp only [hm, iordinalEquals, beq_iff_eq, if_pos] at hret
          rw [← hret]
          exact iff_of_true rfl hm.symm
        · rw [iordinalEquals, beq_iff_eq] at hm
          simp only [iordinalEquals, beq_iff_eq, hm, if_false] at hret
          rw [← hret]
          exact iff_of_false (by simp) (fun he => hm he.symm)
      · by_cases hm : iordinalEquals expected
            (input.take (input.findIdx (fun c => c == ':'))) = true
        · rw [iordinalEquals, beq_iff_eq] at hm
          simp only [hm, iordinalEquals, beq_iff_eq, if_pos] at hret
          rw [← hret]
          exact iff_of_false (by simp) (fun hne => hne hm.symm)
        · rw [iordinalEquals, beq_iff_eq] at hm
          simp only [iordinalEquals, beq_iff_eq, hm, if_false] at hret
          rw [← hret]
          exact iff_of_true rfl (fun he => hm he.symm)

/-- The concrete argument buffer `-po:41` used as the C9 witness. -/
def inputW : List Char := ("-po:41").toList

/-- The expected parameter name `-PO` used as the C9 witness. -/
def expectedW : List Char := ("-PO").toList

/-- Witness for the C9 theorem: parsing `-po:41` against `-PO` matches
case-insensitively, returns the index one past the `:`, and hands the buffer
back unchanged. -/
theorem c9_witness :
    NULC ∉ inputW ∧
    (∀ ret buf, ParseArgument inputW expectedW = .ok (ret, buf) →
      buf = inputW) ∧
    ParseArgument inputW expectedW = .ok (some 4, inputW) := by
  have h := c9_parse_argument inputW expectedW (by decide)
  exact ⟨by decide, fun ret buf hok => (h.2 ret buf hok).1, by rfl⟩

end CtsTraffic
